import Mathlib

/-!
Verification of the Toolbelt catalog tool: the record-reconciliation
engine (`ToolsFileManager.dedupe`), the schema-upgrade transform
(`migrate_tool`), and the marker-bounded document projector
(`ReadmeTableManager`).  Text is modelled at the character level as
`List Char`; Python string operations are translated for the ASCII
range used by the catalog.
-/

namespace Toolbelt

/-- Python `str.lower()` restricted to ASCII. -/
def pyLower (s : List Char) : List Char := s.map Char.toLower

/-- Python `str.islower()` restricted to ASCII: at least one cased
character, and no cased character fails to be lowercase. -/
def pyIsLower (s : List Char) : Bool :=
  s.any (fun c => c.isAlpha) && s.all (fun c => !c.isAlpha || c.isLower)

/-- One entry of a record's `urls` array: `{"name": ..., "url": ...}`.
Fields the code reads with `.get(key, "")` are modelled by their
defaulted values. -/
structure UrlEntry where
  name : List Char
  url : List Char
deriving DecidableEq

/-- One catalog record as consumed by `ToolsFileManager.dedupe` and the
renderers.  Fields the code reads with `.get(key, default)` are
modelled by their defaulted values. -/
structure ToolRec where
  name : List Char
  description : List Char
  urls : List UrlEntry
  tags : List (List Char)
  notes : List (List Char)
deriving DecidableEq

/-- Python `list(set(a) | set(b))`: the element set of the result is the
union of the two element sets; CPython set iteration order is
unspecified, the model fixes one concrete order via `dedup`. -/
def setUnion (a b : List (List Char)) : List (List Char) := (a ++ b).dedup

/-- Union of the two `urls` arrays, deduplicated by structural equality
of the (name, url) pair, as done via `tuple(sorted(x.items()))`. -/
def urlUnion (a b : List UrlEntry) : List UrlEntry := (a ++ b).dedup

/-- Loop body of `ToolsFileManager.dedupe` merging the incoming record
`obj` into the accumulator `m` (tools_file.py lines 141-172).  Note the
description is merged first, and the final name comparison reads the
already-merged description, exactly as the source does. -/
def mergeObj (m obj : ToolRec) : ToolRec :=
  let urls := urlUnion m.urls obj.urls
  let tags := setUnion m.tags obj.tags
  let notes := setUnion m.notes obj.notes
  let desc1 := m.description
  let desc2 := obj.description
  let description := if desc2.length ≤ desc1.length then desc1 else desc2
  let current_name := m.name
  let new_name := obj.name
  let name :=
    if pyIsLower current_name && !pyIsLower new_name then new_name
    else if !pyIsLower current_name && pyIsLower new_name then current_name
    else if description.length < obj.description.length then new_name
    else current_name
  { name := name, description := description, urls := urls, tags := tags,
    notes := notes }

/-- Lookup in the insertion-ordered association list that models the
Python dict `merged`. -/
def lookupKey (acc : List (List Char × ToolRec)) (k : List Char) :
    Option ToolRec :=
  match acc with
  | [] => none
  | (k2, v) :: t => if k2 = k then some v else lookupKey t k

/-- Value replacement in the association list; a Python dict keeps the
key's original insertion position. -/
def updateKey (acc : List (List Char × ToolRec)) (k : List Char)
    (v : ToolRec) : List (List Char × ToolRec) :=
  match acc with
  | [] => []
  | (k2, v2) :: t =>
    if k2 = k then (k2, v) :: t else (k2, v2) :: updateKey t k v

/-- Main loop of `ToolsFileManager.dedupe` over the input records,
threading the insertion-ordered mapping from lowercased name to
accumulator record. -/
def dedupeAux (data : List ToolRec)
    (merged : List (List Char × ToolRec)) : List (List Char × ToolRec) :=
  match data with
  | [] => merged
  | obj :: rest =>
    let name_key := pyLower obj.name
    match lookupKey merged name_key with
    | some m => dedupeAux rest (updateKey merged name_key (mergeObj m obj))
    | none => dedupeAux rest (merged ++ [(name_key, obj)])

/-- `ToolsFileManager.dedupe`: merge records sharing a case-insensitive
name, output in first-seen key order (`list(merged.values())`). -/
def dedupe (data : List ToolRec) : List ToolRec :=
  (dedupeAux data []).map Prod.snd

/-- `PLATFORM_KEYWORDS` from migrations/001_upgrade_schema.py. -/
def PLATFORM_KEYWORDS : List (List Char) :=
  ["linux".data, "mac".data, "windows".data, "android".data, "ios".data]

/-- The default platform list used when no tag matched. -/
def ALL_PLATFORMS : List (List Char) :=
  ["linux".data, "mac".data, "windows".data, "android".data, "ios".data]

/-- Input shape of `migrate_tool`: `category` may be absent (`none`). -/
structure OldTool where
  name : List Char
  category : Option (List Char)
  tags : List (List Char)
deriving DecidableEq

/-- Output shape of `migrate_tool`. -/
structure NewTool where
  name : List Char
  category : List Char
  platforms : List (List Char)
  tags : List (List Char)
deriving DecidableEq

/-- `migrate_tool` from migrations/001_upgrade_schema.py.  Python
iterates over `set(tags)`; the model fixes first-occurrence order via
`dedup` (the claims touched only depend on the element sets). -/
def migrate_tool (obj : OldTool) : NewTool :=
  let category := obj.category.getD "uncategorized".data
  let tagsSet := obj.tags.dedup
  let platforms := tagsSet.filter (fun t => pyLower t ∈ PLATFORM_KEYWORDS)
  let tags := tagsSet.filter (fun t => pyLower t ∉ PLATFORM_KEYWORDS)
  { name := obj.name
    category := category
    platforms := if platforms = [] then ALL_PLATFORMS else platforms
    tags := tags }

/-- `MARKER_START_STR` from constants.py. -/
def MARKER_START_STR : List Char := "<!-- MARKER-TOOLS:START -->".data

/-- `MARKER_END_STR` from constants.py. -/
def MARKER_END_STR : List Char := "<!-- MARKER-TOOLS:END -->".data

/-- The two newline characters inserted on each side of the rendered
section by the replacement template. -/
def NL2 : List Char := ['\n', '\n']

/-- Message of the `ValueError` raised when the markers are absent. -/
def MARKERS_NOT_FOUND_MSG : List Char :=
  "Markers ".data ++ MARKER_START_STR ++ " and/or ".data ++ MARKER_END_STR
    ++ " not found in README".data

/-- Index of the leftmost occurrence of `needle` in `hay`. -/
def findFirst (needle hay : List Char) : Option Nat :=
  match hay with
  | [] => if needle.isPrefixOf [] then some 0 else none
  | c :: t =>
    if needle.isPrefixOf (c :: t) then some 0
    else (findFirst needle t).map (· + 1)

/-- Index of the rightmost occurrence of `needle` in `hay`. -/
def findLast (needle hay : List Char) : Option Nat :=
  match hay with
  | [] => if needle.isPrefixOf [] then some 0 else none
  | c :: t =>
    match findLast needle t with
    | some j => some (j + 1)
    | none => if needle.isPrefixOf (c :: t) then some 0 else none

/-- True for the ASCII octal digits 0-7. -/
def isOctDigit (c : Char) : Bool := '0' ≤ c && c ≤ '7'

/-- Numeric value of an ASCII digit. -/
def digitValue (c : Char) : Nat := c.toNat - 48

/-- Numeric value of a decimal digit sequence, as Python `int`. -/
def natOfDigits (ds : List Char) : Nat :=
  ds.foldl (fun n c => n * 10 + digitValue c) 0

/-- Python `str.isidentifier`, restricted to ASCII (the catalog and
markers are ASCII; a non-ASCII identifier would only change which
error message a malformed `\g<...>` reference produces). -/
def isPyIdentifier (s : List Char) : Bool :=
  match s with
  | [] => false
  | c :: rest =>
    (c.isAlpha || c = '_')
      && rest.all (fun d => d.isAlpha || d.isDigit || d = '_')

/-- Content of group `idx` of the marker-pattern match
`({S})(.*)({E})`: group 0 is the whole match, 1 the start marker, 2
the interior, 3 the end marker.  Indices above 3 are rejected before
this function is consulted. -/
def groupVal (g1 g2 g3 : List Char) (idx : Nat) : List Char :=
  if idx = 0 then g1 ++ g2 ++ g3
  else if idx = 1 then g1
  else if idx = 2 then g2
  else if idx = 3 then g3
  else []

/-- Group substitution with the bounds check CPython's `addgroup`
performs against `pattern.groups` (3 for the marker pattern). -/
def groupRef (g1 g2 g3 : List Char) (idx : Nat)
    (k : Except (List Char) (List Char)) : Except (List Char) (List Char) :=
  if 3 < idx then .error ("invalid group reference".data)
  else k.map (fun r => groupVal g1 g2 g3 idx ++ r)

/-- The recognized single-letter escapes of a replacement template
(CPython's `ESCAPES` table restricted to what `parse_template`
accepts): `\a \b \f \n \r \t \v`. -/
def escChar (c : Char) : Option Char :=
  if c = 'a' then some (Char.ofNat 7)
  else if c = 'b' then some (Char.ofNat 8)
  else if c = 'f' then some (Char.ofNat 12)
  else if c = 'n' then some (Char.ofNat 10)
  else if c = 'r' then some (Char.ofNat 13)
  else if c = 't' then some (Char.ofNat 9)
  else if c = 'v' then some (Char.ofNat 11)
  else none

/-- Scanner state of the template parser, one consumed character per
step: `esc` after a backslash, `gexp` after `\g` awaiting `<`,
`gname` while collecting a `\g<...>` name, `oct0`/`oct1` inside a
`\0`-led octal escape, `dig1`/`dig2` after one or two digits of a
backreference or three-digit octal escape. -/
inductive TplState where
  | normal
  | esc
  | gexp
  | gname (acc : List Char)
  | oct0
  | oct1 (d2 : Char)
  | dig1 (d1 : Char)
  | dig2 (d1 d2 : Char)

/-- Expansion of a `re.sub` replacement template over the three groups
of the marker pattern, following CPython `parse_template`: `\g<...>`
named or numbered group references (the pattern has no named groups, so
every identifier name is unknown), `\0` with up to two octal digits and
three-octal-digit escapes are character codes, one- or two-digit
backreferences substitute a group (index above 3 is an error), the
letter escapes a b f n r t v and `\\` become the usual control
characters, any other ASCII-letter escape is an error, a backslash
before any other character is kept literally, and a trailing backslash
is an error.  Error payloads carry CPython's message text without the
position suffix. -/
def expand_loop (g1 g2 g3 : List Char) :
    List Char → TplState → Except (List Char) (List Char)
  | [], .normal => .ok []
  | [], .esc => .error ("bad escape (end of pattern)".data)
  | [], .gexp => .error ("missing <".data)
  | [], .gname _ => .error ("missing >, unterminated name".data)
  | [], .oct0 => .ok [Char.ofNat 0]
  | [], .oct1 d2 => .ok [Char.ofNat (digitValue d2)]
  | [], .dig1 d1 => groupRef g1 g2 g3 (digitValue d1) (.ok [])
  | [], .dig2 d1 d2 =>
    groupRef g1 g2 g3 (digitValue d1 * 10 + digitValue d2) (.ok [])
  | c :: rest, .normal =>
    if c = '\\' then expand_loop g1 g2 g3 rest .esc
    else (expand_loop g1 g2 g3 rest .normal).map (fun r => c :: r)
  | c :: rest, .esc =>
    if c = 'g' then expand_loop g1 g2 g3 rest .gexp
    else if c = '0' then expand_loop g1 g2 g3 rest .oct0
    else if c.isDigit then expand_loop g1 g2 g3 rest (.dig1 c)
    else if c = '\\' then
      (expand_loop g1 g2 g3 rest .normal).map (fun r => '\\' :: r)
    else
      match escChar c with
      | some e => (expand_loop g1 g2 g3 rest .normal).map (fun r => e :: r)
      | none =>
        if c.isAlpha then .error ("bad escape ".data ++ ['\\', c])
        else (expand_loop g1 g2 g3 rest .normal).map (fun r => '\\' :: c :: r)
  | c :: rest, .gexp =>
    if c = '<' then expand_loop g1 g2 g3 rest (.gname [])
    else .error ("missing <".data)
  | c :: rest, .gname acc =>
    if c = '>' then
      if acc = [] then .error ("missing group name".data)
      else if acc.all Char.isDigit then
        groupRef g1 g2 g3 (natOfDigits acc) (expand_loop g1 g2 g3 rest .normal)
      else if isPyIdentifier acc then .error ("unknown group name".data)
      else .error ("bad character in group name".data)
    else expand_loop g1 g2 g3 rest (.gname (acc ++ [c]))
  | c :: rest, .oct0 =>
    if isOctDigit c then expand_loop g1 g2 g3 rest (.oct1 c)
    else if c = '\\' then
      (expand_loop g1 g2 g3 rest .esc).map (fun r => Char.ofNat 0 :: r)
    else
      (expand_loop g1 g2 g3 rest .normal).map
        (fun r => Char.ofNat 0 :: c :: r)
  | c :: rest, .oct1 d2 =>
    if isOctDigit c then
      (expand_loop g1 g2 g3 rest .normal).map
        (fun r => Char.ofNat ((digitValue d2 * 8 + digitValue c) % 256) :: r)
    else if c = '\\' then
      (expand_loop g1 g2 g3 rest .esc).map
        (fun r => Char.ofNat (digitValue d2) :: r)
    else
      (expand_loop g1 g2 g3 rest .normal).map
        (fun r => Char.ofNat (digitValue d2) :: c :: r)
  | c :: rest, .dig1 d1 =>
    if c.isDigit then expand_loop g1 g2 g3 rest (.dig2 d1 c)
    else if c = '\\' then
      groupRef g1 g2 g3 (digitValue d1) (expand_loop g1 g2 g3 rest .esc)
    else
      groupRef g1 g2 g3 (digitValue d1)
        ((expand_loop g1 g2 g3 rest .normal).map (fun r => c :: r))
  | c :: rest, .dig2 d1 d2 =>
    if isOctDigit d1 && isOctDigit d2 && isOctDigit c then
      if 255 < digitValue d1 * 64 + digitValue d2 * 8 + digitValue c then
        .error ("octal escape value outside of range 0-0o377".data)
      else
        (expand_loop g1 g2 g3 rest .normal).map
          (fun r => Char.ofNat
            (digitValue d1 * 64 + digitValue d2 * 8 + digitValue c) :: r)
    else if c = '\\' then
      groupRef g1 g2 g3 (digitValue d1 * 10 + digitValue d2)
        (expand_loop g1 g2 g3 rest .esc)
    else
      groupRef g1 g2 g3 (digitValue d1 * 10 + digitValue d2)
        ((expand_loop g1 g2 g3 rest .normal).map (fun r => c :: r))

/-- Expansion of a replacement template starting in normal state. -/
def expand_template (tpl g1 g2 g3 : List Char) :
    Except (List Char) (List Char) :=
  expand_loop g1 g2 g3 tpl .normal

/-- The replacement template built at readme_file.py line 70 by
`f"\\1\n\n{new_section}\n\n\\3"`: backslash-1, a blank line, the
rendered section, a blank line, backslash-3. -/
def sub_template (new_section : List Char) : List Char :=
  ['\\', '1'] ++ NL2 ++ new_section ++ NL2 ++ ['\\', '3']

/-- `ReadmeTableManager.replace_marker_section`.  The pattern
`({S})(.*)({E})` compiled with `re.DOTALL` matches greedily: the match
runs from the first occurrence of the start marker to the last
occurrence of the end marker after it, and `pattern.sub` replaces the
match with the expansion of the template `\1\n\n<section>\n\n\3`, in
which backslash escapes inside the rendered section are processed by
`parse_template` (see `expand_loop`); a malformed escape raises. -/
def replace_marker_section (content new_section : List Char) :
    Except (List Char) (List Char) :=
  match findFirst MARKER_START_STR content, findLast MARKER_END_STR content with
  | some i, some j =>
    if i + MARKER_START_STR.length ≤ j then
      match expand_template (sub_template new_section) MARKER_START_STR
          ((content.drop (i + MARKER_START_STR.length)).take
            (j - (i + MARKER_START_STR.length))) MARKER_END_STR with
      | .error e => .error e
      | .ok repl =>
        .ok (content.take i ++ repl
          ++ content.drop (j + MARKER_END_STR.length))
    else .error MARKERS_NOT_FOUND_MSG
  | _, _ => .error MARKERS_NOT_FOUND_MSG

/-- `ReadmeTableManager.escape_pipe`. -/
def escape_pipe (text : List Char) : List Char :=
  (text.map (fun c => if c = '|' then ['\\', '|'] else [c])).flatten

/-- Message of the `ValueError` raised for a record with no usable home
link. -/
def missing_home_msg (name : List Char) : List Char :=
  "Tool '".data ++ name ++ "' does not have a 'home' URL.".data

/-- The url-scanning loop shared by both renderers: entries whose `url`
is empty are skipped, the home link's url is remembered (a later home
link overwrites an earlier one) and all other links are collected in
order. -/
def scanUrlsLoop (urls : List UrlEntry) (home_url : Option (List Char))
    (other_urls : List UrlEntry) : Option (List Char) × List UrlEntry :=
  match urls with
  | [] => (home_url, other_urls)
  | u :: rest =>
    if u.url = [] then scanUrlsLoop rest home_url other_urls
    else if u.name = "home".data then scanUrlsLoop rest (some u.url) other_urls
    else scanUrlsLoop rest home_url (other_urls ++ [u])

/-- Entry point of the url-scanning loop. -/
def scanUrls (urls : List UrlEntry) : Option (List Char) × List UrlEntry :=
  scanUrlsLoop urls none []

/-- Markdown rendering of a non-home link: `[name](url)` when the link
is labeled, else the bare url. -/
def format_url (u : UrlEntry) : List Char :=
  if u.name ≠ [] then "[".data ++ u.name ++ "](".data ++ u.url ++ ")".data
  else u.url

/-- Cell list for one tool's table row; fails when no usable home link
was found. -/
def table_row (tool : ToolRec) (render_tags render_notes : Bool) :
    Except (List Char) (List (List Char)) :=
  let s := scanUrls tool.urls
  match s.1 with
  | none => .error (missing_home_msg tool.name)
  | some home_url =>
    let other_urls := s.2
    let name_link := "[".data ++ tool.name ++ "](".data ++ home_url ++ ")".data
    let url_list_md := List.intercalate ", ".data (other_urls.map format_url)
    .ok ([name_link, tool.description, url_list_md]
      ++ (if render_tags then [List.intercalate ", ".data tool.tags] else [])
      ++ (if render_notes then [List.intercalate ", ".data tool.notes] else []))

/-- The row-building loop of `render_markdown_table`; the first tool
without a usable home link aborts the whole rendering. -/
def table_rows (tools : List ToolRec) (render_tags render_notes : Bool) :
    Except (List Char) (List (List (List Char))) :=
  match tools with
  | [] => .ok []
  | tool :: rest =>
    match table_row tool render_tags render_notes with
    | .error e => .error e
    | .ok row =>
      match table_rows rest render_tags render_notes with
      | .error e => .error e
      | .ok rs => .ok (row :: rs)

/-- `ReadmeTableManager.render_markdown_table`. -/
def render_markdown_table (tools : List ToolRec)
    (render_tags render_notes : Bool) : Except (List Char) (List Char) :=
  let headers := ["Name".data, "Description".data, "URLs".data]
    ++ (if render_tags then ["Tags".data] else [])
    ++ (if render_notes then ["Notes".data] else [])
  match table_rows tools render_tags render_notes with
  | .error e => .error e
  | .ok rows =>
    let header_line :=
      "| ".data ++ List.intercalate " | ".data headers ++ " |".data
    let separator_line :=
      "| ".data ++ List.intercalate " | ".data (headers.map (fun _ => "---".data))
        ++ " |".data
    let row_lines := rows.map (fun row =>
      "| ".data ++ List.intercalate " | ".data (row.map escape_pipe) ++ " |".data)
    .ok (List.intercalate "\n".data ([header_line, separator_line] ++ row_lines))

/-- Lines contributed by one tool in `render_markdown_list`; fails when
no usable home link was found. -/
def list_entry (tool : ToolRec) (render_tags render_notes : Bool) :
    Except (List Char) (List (List Char)) :=
  let s := scanUrls tool.urls
  match s.1 with
  | none => .error (missing_home_msg tool.name)
  | some home_url =>
    let other_urls := s.2
    .ok (["### [".data ++ tool.name ++ "](".data ++ home_url ++ ")".data]
      ++ (if tool.description ≠ [] then [tool.description ++ "\n".data] else [])
      ++ (if other_urls ≠ [] then
            ["**URLs:**\n".data
              ++ List.intercalate "\n".data (other_urls.map (fun u =>
                  if u.name ≠ [] then
                    "- [".data ++ u.name ++ "](".data ++ u.url ++ ")".data
                  else "- ".data ++ u.url))
              ++ "\n".data]
          else [])
      ++ (if render_tags ∧ tool.tags ≠ [] then
            ["**Tags:** ".data ++ List.intercalate ", ".data tool.tags
              ++ "\n".data]
          else [])
      ++ (if render_notes ∧ tool.notes ≠ [] then
            ["**Notes:** ".data ++ List.intercalate ", ".data tool.notes
              ++ "\n".data]
          else []))

/-- The per-tool loop of `render_markdown_list`. -/
def list_lines (tools : List ToolRec) (render_tags render_notes : Bool) :
    Except (List Char) (List (List Char)) :=
  match tools with
  | [] => .ok []
  | tool :: rest =>
    match list_entry tool render_tags render_notes with
    | .error e => .error e
    | .ok ls =>
      match list_lines rest render_tags render_notes with
      | .error e => .error e
      | .ok rest2 => .ok (ls ++ rest2)

/-- `ReadmeTableManager.render_markdown_list`. -/
def render_markdown_list (tools : List ToolRec)
    (render_tags render_notes : Bool) : Except (List Char) (List Char) :=
  match list_lines tools render_tags render_notes with
  | .error e => .error e
  | .ok ls => .ok (List.intercalate "\n".data ls)

/-- `ReadmeTableManager.update_readme_with_table`: the document is read
(the `content` argument), the section rendered, the marker span spliced
and the result written back; the returned value is the text that would
be written, and any failure aborts before the write. -/
def update_readme_with_table (tools : List ToolRec) (content : List Char)
    (as_table render_tags render_notes : Bool) :
    Except (List Char) (List Char) :=
  match (if as_table then render_markdown_table tools render_tags render_notes
         else render_markdown_list tools render_tags render_notes) with
  | .error e => .error e
  | .ok new_section => replace_marker_section content new_section

/-- A record with its empty-url links removed; used to state that such
links are ignored by rendering. -/
def stripEmptyUrls (r : ToolRec) : ToolRec :=
  { r with urls := r.urls.filter (fun u => u.url ≠ []) }

/-! Concrete records used by the claim theorems. -/

/-- Accumulator-side record of the C1 scenario: mixed-case name, short
description. -/
def c1_first : ToolRec :=
  { name := "Curl".data, description := "a".data, urls := [], tags := [],
    notes := [] }

/-- Incoming record of the C1 scenario: same name key, mixed case,
strictly longer description. -/
def c1_second : ToolRec :=
  { name := "CUrl".data, description := "ab".data, urls := [], tags := [],
    notes := [] }

/-- What the code produces for the C1 scenario: the accumulator's name
is kept although the incoming description is longer. -/
def c1_result : ToolRec :=
  { name := "Curl".data, description := "ab".data, urls := [], tags := [],
    notes := [] }

/-- The all-lowercase curl record of concrete scenario 1. -/
def curl_lower : ToolRec :=
  { name := "curl".data, description := [],
    urls := [{ name := "home".data, url := "https://curl.se".data }],
    tags := ["cli".data], notes := [] }

/-- The mixed-case Curl record of concrete scenario 1. -/
def curl_mixed : ToolRec :=
  { name := "Curl".data, description := [],
    urls := [{ name := "home".data, url := "https://curl.se".data }],
    tags := ["http".data], notes := [] }

/-- The merge result of concrete scenario 1. -/
def curl_merged : ToolRec :=
  { name := "Curl".data, description := [],
    urls := [{ name := "home".data, url := "https://curl.se".data }],
    tags := ["cli".data, "http".data], notes := [] }

/-- Record with no urls at all (hence no home link). -/
def no_urls_rec : ToolRec :=
  { name := "x".data, description := [], urls := [], tags := [],
    notes := [] }

/-- Record whose only home link has an empty url. -/
def empty_home_rec : ToolRec :=
  { name := "x".data, description := [],
    urls := [{ name := "home".data, url := [] }], tags := [], notes := [] }

/-- The single-marker-pair document of concrete scenario 3: start
marker, newline, OLD, newline, end marker. -/
def old_doc : List Char :=
  MARKER_START_STR ++ "\n".data ++ "OLD".data ++ "\n".data ++ MARKER_END_STR

/-- A document whose end marker occurs twice after the start marker. -/
def two_end_doc : List Char :=
  MARKER_START_STR ++ "\nA\n".data ++ MARKER_END_STR ++ "\nB\n".data
    ++ MARKER_END_STR

/-- Input of concrete scenario 4, first record. -/
def x_old : OldTool :=
  { name := "x".data, category := none,
    tags := ["windows".data, "cli".data] }

/-- Expected upgrade of `x_old`. -/
def x_new : NewTool :=
  { name := "x".data, category := "uncategorized".data,
    platforms := ["windows".data], tags := ["cli".data] }

/-- Input of concrete scenario 4, second record (no platform-like
tag). -/
def y_old : OldTool :=
  { name := "y".data, category := none, tags := ["cli".data] }

/-- Expected upgrade of `y_old`: all five platforms. -/
def y_new : NewTool :=
  { name := "y".data, category := "uncategorized".data,
    platforms := ALL_PLATFORMS, tags := ["cli".data] }

/-! Characterization of `findFirst` and `findLast` in terms of list
prefix occurrences: `needle` occurs at position `k` of `hay` when
`needle <+: hay.drop k`. -/

/-- Bridge between the boolean prefix test used by the scanning
functions and the propositional prefix relation. -/
theorem isPrefixOf_eq_true_iff (l1 l2 : List Char) :
    l1.isPrefixOf l2 = true ↔ l1 <+: l2 :=
  List.isPrefixOf_iff_prefix

theorem findFirst_spec1 (needle : List Char) :
    ∀ (hay : List Char) (i : Nat),
      findFirst needle hay = some i → needle <+: hay.drop i := by
  intro hay
  induction hay with
  | nil =>
    intro i h
    simp only [findFirst] at h
    split at h
    · next hp =>
      obtain rfl : 0 = i := Option.some.inj h
      simpa using isPrefixOf_eq_true_iff _ _ |>.mp hp
    · exact absurd h (by simp)
  | cons c t ih =>
    intro i h
    simp only [findFirst] at h
    split at h
    · next hp =>
      obtain rfl : 0 = i := Option.some.inj h
      simpa using isPrefixOf_eq_true_iff _ _ |>.mp hp
    · next hp =>
      obtain ⟨i2, hi2, rfl⟩ := Option.map_eq_some'.mp h
      simpa using ih i2 hi2

theorem findFirst_spec2 (needle : List Char) :
    ∀ (hay : List Char) (i : Nat), findFirst needle hay = some i →
      ∀ k, needle <+: hay.drop k → i ≤ k := by
  intro hay
  induction hay with
  | nil =>
    intro i h k _
    simp only [findFirst] at h
    split at h
    · obtain rfl : 0 = i := Option.some.inj h
      omega
    · exact absurd h (by simp)
  | cons c t ih =>
    intro i h k hk
    simp only [findFirst] at h
    split at h
    · obtain rfl : 0 = i := Option.some.inj h
      omega
    · next hp =>
      obtain ⟨i2, hi2, rfl⟩ := Option.map_eq_some'.mp h
      match k with
      | 0 =>
        exact absurd (isPrefixOf_eq_true_iff _ _ |>.mpr (by simpa using hk))
          (by simpa using hp)
      | k2 + 1 =>
        have := ih i2 hi2 k2 (by simpa using hk)
        omega

theorem findFirst_none (needle : List Char) :
    ∀ (hay : List Char), findFirst needle hay = none →
      ∀ k, ¬ needle <+: hay.drop k := by
  intro hay
  induction hay with
  | nil =>
    intro h k hk
    simp only [findFirst] at h
    split at h
    · exact absurd h (by simp)
    · next hp => exact hp (isPrefixOf_eq_true_iff _ _ |>.mpr (by simpa using hk))
  | cons c t ih =>
    intro h k hk
    simp only [findFirst] at h
    split at h
    · exact absurd h (by simp)
    · next hp =>
      have hmap : findFirst needle t = none := Option.map_eq_none'.mp h
      match k with
      | 0 => exact hp (isPrefixOf_eq_true_iff _ _ |>.mpr (by simpa using hk))
      | k2 + 1 => exact ih hmap k2 (by simpa using hk)

theorem findFirst_eq_of (needle hay : List Char) (i : Nat)
    (h1 : needle <+: hay.drop i) (h2 : ∀ k, needle <+: hay.drop k → i ≤ k) :
    findFirst needle hay = some i := by
  cases hf : findFirst needle hay with
  | none => exact absurd h1 (findFirst_none needle hay hf i)
  | some i2 =>
    have ha := findFirst_spec1 needle hay i2 hf
    have hb := findFirst_spec2 needle hay i2 hf i h1
    have hc := h2 i2 ha
    congr
    omega

theorem findLast_spec1 (needle : List Char) :
    ∀ (hay : List Char) (j : Nat),
      findLast needle hay = some j → needle <+: hay.drop j := by
  intro hay
  induction hay with
  | nil =>
    intro j h
    simp only [findLast] at h
    split at h
    · next hp =>
      obtain rfl : 0 = j := Option.some.inj h
      simpa using isPrefixOf_eq_true_iff _ _ |>.mp hp
    · exact absurd h (by simp)
  | cons c t ih =>
    intro j h
    cases hf : findLast needle t with
    | some j2 =>
      simp only [findLast, hf] at h
      obtain rfl : j2 + 1 = j := Option.some.inj h
      simpa using ih j2 hf
    | none =>
      simp only [findLast, hf] at h
      split at h
      · next hp =>
        obtain rfl : 0 = j := Option.some.inj h
        exact isPrefixOf_eq_true_iff _ _ |>.mp hp
      · exact absurd h (by simp)

theorem findLast_none0 (needle : List Char) :
    ∀ (hay : List Char), findLast needle hay = none →
      ∀ k, ¬ needle <+: hay.drop k := by
  intro hay
  induction hay with
  | nil =>
    intro h k hk
    simp only [findLast] at h
    split at h
    · exact absurd h (by simp)
    · next hp => exact hp (isPrefixOf_eq_true_iff _ _ |>.mpr (by simpa using hk))
  | cons c t ih =>
    intro h k hk
    cases hf : findLast needle t with
    | some j2 => simp [findLast, hf] at h
    | none =>
      simp only [findLast, hf] at h
      split at h
      · exact absurd h (by simp)
      · next hp =>
        match k with
        | 0 => exact hp (isPrefixOf_eq_true_iff _ _ |>.mpr (by simpa using hk))
        | k2 + 1 => exact ih hf k2 (by simpa using hk)

theorem findLast_spec2 (needle : List Char) (hne : needle ≠ []) :
    ∀ (hay : List Char) (j : Nat), findLast needle hay = some j →
      ∀ k, needle <+: hay.drop k → k ≤ j := by
  intro hay
  induction hay with
  | nil =>
    intro j h k hk
    rw [List.drop_nil] at hk
    exact absurd (List.prefix_nil.mp hk) hne
  | cons c t ih =>
    intro j h k hk
    cases hf : findLast needle t with
    | some j2 =>
      simp only [findLast, hf] at h
      obtain rfl : j2 + 1 = j := Option.some.inj h
      match k with
      | 0 => omega
      | k2 + 1 =>
        have := ih j2 hf k2 (by simpa using hk)
        omega
    | none =>
      simp only [findLast, hf] at h
      split at h
      · next hp =>
        obtain rfl : 0 = j := Option.some.inj h
        match k with
        | 0 => omega
        | k2 + 1 =>
          exact absurd (by simpa using hk) (findLast_none0 needle t hf k2)
      · exact absurd h (by simp)

theorem findLast_eq_of (needle hay : List Char) (hne : needle ≠ []) (j : Nat)
    (h1 : needle <+: hay.drop j) (h2 : ∀ k, needle <+: hay.drop k → k ≤ j) :
    findLast needle hay = some j := by
  cases hf : findLast needle hay with
  | none => exact absurd h1 (findLast_none0 needle hay hf j)
  | some j2 =>
    have ha := findLast_spec1 needle hay j2 hf
    have hb := findLast_spec2 needle hne hay j2 hf j h1
    have hc := h2 j2 ha
    congr
    omega

/-! Occurrence transfer along a shared prefix, and splitting a list at
an occurrence. -/

theorem prefix_drop_take (n h2 : List Char) (k m : Nat)
    (hm : k + n.length ≤ m) :
    n <+: (h2.take m).drop k ↔ n <+: h2.drop k := by
  rw [List.prefix_iff_eq_take, List.prefix_iff_eq_take, List.drop_take,
    List.take_take]
  have hmin : min n.length (m - k) = n.length := by omega
  rw [hmin]

theorem prefix_congr_of_take_eq {h1 h2 : List Char} {m : Nat}
    (heq : h1.take m = h2.take m) (n : List Char) (k : Nat)
    (hk : k + n.length ≤ m) : n <+: h1.drop k ↔ n <+: h2.drop k := by
  rw [← prefix_drop_take n h1 k m hk, heq, prefix_drop_take n h2 k m hk]

theorem occ_decomp {n hay : List Char} {i : Nat} (ho : n <+: hay.drop i) :
    hay = hay.take i ++ n ++ hay.drop (i + n.length) := by
  obtain ⟨t, ht⟩ := ho
  have hdd : hay.drop (i + n.length) = t := by
    rw [← List.drop_drop, ← ht, List.drop_left]
  conv_lhs => rw [← List.take_append_drop i hay]
  rw [← ht, hdd, List.append_assoc]

theorem occ_tail {n hay : List Char} {i : Nat} (ho : n <+: hay.drop i) :
    hay.drop i = n ++ hay.drop (i + n.length) := by
  obtain ⟨t, ht⟩ := ho
  have hdd : hay.drop (i + n.length) = t := by
    rw [← List.drop_drop, ← ht, List.drop_left]
  rw [← ht, hdd]

theorem drop_append_of_ge (a b : List Char) (k : Nat) (hk : a.length ≤ k) :
    (a ++ b).drop k = b.drop (k - a.length) := by
  rw [List.drop_append_eq_append_drop, List.drop_eq_nil_iff.mpr hk,
    List.nil_append]

/-! Expansion of the concrete replacement template.  A rendered
section without backslashes passes through `parse_template`
literally. -/

theorem expand_loop_literal (g1 g2 g3 : List Char) :
    ∀ (sec tail : List Char), '\\' ∉ sec →
      expand_loop g1 g2 g3 (sec ++ tail) .normal
        = (expand_loop g1 g2 g3 tail .normal).map (fun r => sec ++ r) := by
  intro sec
  induction sec with
  | nil =>
    intro tail h
    cases he : expand_loop g1 g2 g3 tail .normal <;> simp [Except.map, he]
  | cons c rest ih =>
    intro tail h
    have hc : ¬ c = '\\' := fun hcon => h (by simp [hcon])
    have hrest : '\\' ∉ rest := fun hcon => h (List.mem_cons_of_mem _ hcon)
    have hstep : expand_loop g1 g2 g3 ((c :: rest) ++ tail) .normal
        = (expand_loop g1 g2 g3 (rest ++ tail) .normal).map
            (fun r => c :: r) := by
      simp only [List.cons_append, expand_loop]
      rw [if_neg hc]
      rfl
    rw [hstep, ih tail hrest]
    cases he : expand_loop g1 g2 g3 tail .normal <;> simp [Except.map, he]

theorem expand_tpl_head (g1 g2 g3 : List Char) (X : List Char) :
    expand_loop g1 g2 g3 ('\\' :: '1' :: '\n' :: '\n' :: X) .normal
      = groupRef g1 g2 g3 1
          ((expand_loop g1 g2 g3 ('\n' :: X) .normal).map
            (fun r => '\n' :: r)) := rfl

theorem expand_tpl_nl (g1 g2 g3 : List Char) (X : List Char) :
    expand_loop g1 g2 g3 ('\n' :: X) .normal
      = (expand_loop g1 g2 g3 X .normal).map (fun r => '\n' :: r) := rfl

theorem expand_tpl_tail (g1 g2 g3 : List Char) :
    expand_loop g1 g2 g3 ['\n', '\n', '\\', '3'] .normal
      = .ok ('\n' :: '\n' :: (g3 ++ [])) := rfl

theorem expand_sub_template_literal (g1 g3 sec : List Char)
    (h : '\\' ∉ sec) (g2 : List Char) :
    expand_template (sub_template sec) g1 g2 g3
      = .ok (g1 ++ NL2 ++ sec ++ NL2 ++ g3) := by
  have hshape : sub_template sec
      = '\\' :: '1' :: '\n' :: '\n' :: (sec ++ ['\n', '\n', '\\', '3']) := by
    simp [sub_template, NL2]
  rw [expand_template, hshape, expand_tpl_head, expand_tpl_nl,
    expand_loop_literal g1 g2 g3 sec _ h, expand_tpl_tail]
  simp [groupRef, groupVal, Except.map, NL2, List.append_assoc]

/-! Structure of a successful `replace_marker_section`. -/

theorem replace_ok_elim {content new_section out : List Char}
    (h : replace_marker_section content new_section = .ok out) :
    ∃ i j repl,
      findFirst MARKER_START_STR content = some i ∧
      findLast MARKER_END_STR content = some j ∧
      i + MARKER_START_STR.length ≤ j ∧
      expand_template (sub_template new_section) MARKER_START_STR
          ((content.drop (i + MARKER_START_STR.length)).take
            (j - (i + MARKER_START_STR.length))) MARKER_END_STR = .ok repl ∧
      out = content.take i ++ repl
        ++ content.drop (j + MARKER_END_STR.length) := by
  cases hf : findFirst MARKER_START_STR content with
  | none => simp [replace_marker_section, hf] at h
  | some i =>
    cases hl : findLast MARKER_END_STR content with
    | none => simp [replace_marker_section, hf, hl] at h
    | some j =>
      simp only [replace_marker_section, hf, hl] at h
      split at h
      · next hc =>
        cases hexp : expand_template (sub_template new_section)
            MARKER_START_STR
            ((content.drop (i + MARKER_START_STR.length)).take
              (j - (i + MARKER_START_STR.length))) MARKER_END_STR with
        | error e => simp [hexp] at h
        | ok repl =>
          simp only [hexp] at h
          exact ⟨i, j, repl, rfl, rfl, hc, hexp, (Except.ok.inj h).symm⟩
      · exact absurd h (by simp)

theorem replace_ok_split {content new_section out : List Char}
    (h : replace_marker_section content new_section = .ok out) :
    ∃ pre mid post repl i j,
      findFirst MARKER_START_STR content = some i ∧
      findLast MARKER_END_STR content = some j ∧
      pre = content.take i ∧ pre.length = i ∧
      post = content.drop (j + MARKER_END_STR.length) ∧
      expand_template (sub_template new_section) MARKER_START_STR mid
          MARKER_END_STR = .ok repl ∧
      content = pre ++ MARKER_START_STR ++ mid ++ MARKER_END_STR ++ post ∧
      out = pre ++ repl ++ post := by
  obtain ⟨i, j, repl, hf, hl, hc, hexp, hout⟩ := replace_ok_elim h
  have occS := findFirst_spec1 MARKER_START_STR content i hf
  have occE := findLast_spec1 MARKER_END_STR content j hl
  have hSne : MARKER_START_STR ≠ [] := by decide
  have hSpos : 0 < MARKER_START_STR.length := List.length_pos.mpr hSne
  have hlenS : MARKER_START_STR.length ≤ content.length - i := by
    simpa using occS.length_le
  have hplen : (content.take i).length = i := by
    rw [List.length_take]
    omega
  refine ⟨content.take i,
    (content.drop (i + MARKER_START_STR.length)).take
      (j - (i + MARKER_START_STR.length)),
    content.drop (j + MARKER_END_STR.length), repl, i, j, hf, hl, rfl, hplen,
    rfl, hexp, ?_, hout⟩
  have hstep1 : content = content.take i ++ MARKER_START_STR
      ++ content.drop (i + MARKER_START_STR.length) := occ_decomp occS
  have hstep2 : content.drop j
      = MARKER_END_STR ++ content.drop (j + MARKER_END_STR.length) :=
    occ_tail occE
  have hstep3 : (content.drop (i + MARKER_START_STR.length)).drop
      (j - (i + MARKER_START_STR.length)) = content.drop j := by
    rw [List.drop_drop]
    congr 1
    omega
  have hstep4 : content.drop (i + MARKER_START_STR.length)
      = (content.drop (i + MARKER_START_STR.length)).take
          (j - (i + MARKER_START_STR.length))
        ++ (MARKER_END_STR ++ content.drop (j + MARKER_END_STR.length)) := by
    conv_lhs => rw [← List.take_append_drop (j - (i + MARKER_START_STR.length))
      (content.drop (i + MARKER_START_STR.length))]
    rw [hstep3, hstep2]
  conv_lhs => rw [hstep1, hstep4]
  simp [List.append_assoc]

/-- Specialization of `replace_ok_split` to a backslash-free rendered
section: the template expansion is the literal blank-line-padded
splice. -/
theorem replace_ok_split_literal {content new_section out : List Char}
    (hbs : '\\' ∉ new_section)
    (h : replace_marker_section content new_section = .ok out) :
    ∃ pre mid post i j,
      findFirst MARKER_START_STR content = some i ∧
      findLast MARKER_END_STR content = some j ∧
      pre = content.take i ∧ pre.length = i ∧
      post = content.drop (j + MARKER_END_STR.length) ∧
      content = pre ++ MARKER_START_STR ++ mid ++ MARKER_END_STR ++ post ∧
      out = pre ++ MARKER_START_STR ++ NL2 ++ new_section ++ NL2
        ++ MARKER_END_STR ++ post := by
  obtain ⟨pre, mid, post, repl, i, j, hf, hl, hpre, hplen, hpost, hexp,
    hcontent, hout⟩ := replace_ok_split h
  have hlit := expand_sub_template_literal MARKER_START_STR
    MARKER_END_STR new_section hbs mid
  rw [hexp] at hlit
  have hrepl : repl = MARKER_START_STR ++ NL2 ++ new_section ++ NL2
      ++ MARKER_END_STR := Except.ok.inj hlit
  refine ⟨pre, mid, post, i, j, hf, hl, hpre, hplen, hpost, hcontent, ?_⟩
  rw [hout, hrepl]
  simp [List.append_assoc]

/-- Projecting a second time with the same backslash-free rendered
section returns the first result unchanged: the first start-marker
occurrence and last end-marker occurrence of the output delimit exactly
the freshly spliced interior. -/
theorem replace_fixed_point {content new_section out : List Char}
    (hbs : '\\' ∉ new_section)
    (h : replace_marker_section content new_section = .ok out) :
    replace_marker_section out new_section = .ok out := by
  obtain ⟨pre, mid, post, i, j, hf, hl, hpre, hplen, hpost, hcontent, hout⟩ :=
    replace_ok_split_literal hbs h
  have hEne : MARKER_END_STR ≠ [] := by decide
  have minS := findFirst_spec2 MARKER_START_STR content i hf
  have maxE := findLast_spec2 MARKER_END_STR hEne content j hl
  have occE := findLast_spec1 MARKER_END_STR content j hl
  have hdropj : content.drop j = MARKER_END_STR ++ post := by
    rw [occ_tail occE, ← hpost]
  have hcontent2 : content = (pre ++ MARKER_START_STR)
      ++ (mid ++ (MARKER_END_STR ++ post)) := by
    rw [hcontent]; simp [List.append_assoc]
  have hout2 : out = (pre ++ MARKER_START_STR)
      ++ (NL2 ++ (new_section ++ (NL2 ++ (MARKER_END_STR ++ post)))) := by
    rw [hout]; simp [List.append_assoc]
  have hlen2 : (pre ++ MARKER_START_STR).length
      = i + MARKER_START_STR.length := by
    simp [hplen]
  have htake_eq : out.take (i + MARKER_START_STR.length)
      = content.take (i + MARKER_START_STR.length) := by
    rw [hcontent2, hout2, List.take_left' hlen2, List.take_left' hlen2]
  have houtPre : out = pre ++ (MARKER_START_STR ++ (NL2 ++ (new_section
      ++ (NL2 ++ (MARKER_END_STR ++ post))))) := by
    rw [hout]; simp [List.append_assoc]
  have hfOut : findFirst MARKER_START_STR out = some i := by
    apply findFirst_eq_of
    · rw [houtPre, List.drop_left' hplen]
      exact List.prefix_append _ _
    · intro k hk
      by_cases hki : i ≤ k
      · exact hki
      · exact minS k ((prefix_congr_of_take_eq htake_eq MARKER_START_STR k
          (by omega)).mp hk)
  have houtA : out = (pre ++ MARKER_START_STR ++ NL2 ++ new_section ++ NL2)
      ++ (MARKER_END_STR ++ post) := by
    rw [hout]; simp [List.append_assoc]
  have hAlen : (pre ++ MARKER_START_STR ++ NL2 ++ new_section ++ NL2).length
      = i + MARKER_START_STR.length + 2 + new_section.length + 2 := by
    simp [hplen, NL2]
    omega
  have hlOut : findLast MARKER_END_STR out
      = some (i + MARKER_START_STR.length + 2 + new_section.length + 2) := by
    apply findLast_eq_of _ _ hEne
    · rw [houtA, ← hAlen, List.drop_left]
      exact List.prefix_append _ _
    · intro k hk
      by_cases hkj : k ≤ i + MARKER_START_STR.length + 2 + new_section.length + 2
      · exact hkj
      · exfalso
        have houtk : out.drop k = (MARKER_END_STR ++ post).drop
            (k - (i + MARKER_START_STR.length + 2 + new_section.length + 2)) := by
          rw [houtA, drop_append_of_ge _ _ _ (by rw [hAlen]; omega), hAlen]
        have hck : content.drop
            (j + (k - (i + MARKER_START_STR.length + 2 + new_section.length + 2)))
            = (MARKER_END_STR ++ post).drop
              (k - (i + MARKER_START_STR.length + 2 + new_section.length + 2)) := by
          rw [← List.drop_drop, hdropj]
        have hoc : MARKER_END_STR <+: content.drop
            (j + (k - (i + MARKER_START_STR.length + 2 + new_section.length + 2))) := by
          rw [hck, ← houtk]
          exact hk
        have := maxE _ hoc
        omega
  have hcond : i + MARKER_START_STR.length
      ≤ i + MARKER_START_STR.length + 2 + new_section.length + 2 := by omega
  have htakei : out.take i = pre := by
    rw [houtPre, List.take_left' hplen]
  have hlen3 : ((pre ++ MARKER_START_STR ++ NL2 ++ new_section ++ NL2)
      ++ MARKER_END_STR).length
      = i + MARKER_START_STR.length + 2 + new_section.length + 2
        + MARKER_END_STR.length := by
    simp [hplen, NL2]
    omega
  have houtAE : out = ((pre ++ MARKER_START_STR ++ NL2 ++ new_section ++ NL2)
      ++ MARKER_END_STR) ++ post := by
    rw [hout]
  have hdropA : out.drop (i + MARKER_START_STR.length + 2 + new_section.length
      + 2 + MARKER_END_STR.length) = post := by
    rw [houtAE, List.drop_left' hlen3]
  simp only [replace_marker_section, hfOut, hlOut]
  rw [if_pos hcond]
  simp only [expand_sub_template_literal MARKER_START_STR MARKER_END_STR
    new_section hbs]
  rw [htakei, hdropA, hout]
  simp [List.append_assoc]

/-- When no start-marker occurrence is followed by an end-marker
occurrence, `replace_marker_section` fails with the markers-not-found
message, whatever the rendered section. -/
theorem replace_error_of_no_pair {content : List Char}
    (h : ¬ ∃ i j, MARKER_START_STR <+: content.drop i ∧
        MARKER_END_STR <+: content.drop j ∧ i + MARKER_START_STR.length ≤ j) :
    ∀ new_section, replace_marker_section content new_section
      = .error MARKERS_NOT_FOUND_MSG := by
  intro new_section
  cases hf : findFirst MARKER_START_STR content with
  | none => simp [replace_marker_section, hf]
  | some i =>
    cases hl : findLast MARKER_END_STR content with
    | none => simp [replace_marker_section, hf, hl]
    | some j =>
      have occS := findFirst_spec1 MARKER_START_STR content i hf
      have occE := findLast_spec1 MARKER_END_STR content j hl
      have hc : ¬ i + MARKER_START_STR.length ≤ j :=
        fun hc => h ⟨i, j, occS, occE, hc⟩
      simp [replace_marker_section, hf, hl, hc]

/-! Reconciliation: invariants of `dedupe`. -/

theorem mergeObj_name_key {m obj : ToolRec} {k : List Char}
    (hm : pyLower m.name = k) (ho : pyLower obj.name = k) :
    pyLower (mergeObj m obj).name = k := by
  simp only [mergeObj]
  split_ifs <;> assumption

theorem lookupKey_none_iff (acc : List (List Char × ToolRec)) (k : List Char) :
    lookupKey acc k = none ↔ k ∉ acc.map Prod.fst := by
  induction acc with
  | nil => simp [lookupKey]
  | cons p t ih =>
    obtain ⟨k2, v⟩ := p
    simp only [lookupKey, List.map_cons, List.mem_cons]
    by_cases hk : k2 = k
    · rw [if_pos hk]
      exact iff_of_false (Option.some_ne_none v)
        (fun hcon => hcon (Or.inl hk.symm))
    · rw [if_neg hk, ih]
      constructor
      · intro h hmem
        rcases hmem with h2 | h2
        · exact hk h2.symm
        · exact h h2
      · intro h hmem
        exact h (Or.inr hmem)

theorem lookupKey_some_mem {acc : List (List Char × ToolRec)} {k : List Char}
    {v : ToolRec} (h : lookupKey acc k = some v) : (k, v) ∈ acc := by
  induction acc with
  | nil => simp [lookupKey] at h
  | cons p t ih =>
    obtain ⟨k2, v2⟩ := p
    simp only [lookupKey] at h
    by_cases hk : k2 = k
    · rw [if_pos hk] at h
      obtain rfl := Option.some.inj h
      subst hk
      exact List.mem_cons_self _ _
    · rw [if_neg hk] at h
      exact List.mem_cons_of_mem _ (ih h)

theorem updateKey_map_fst (acc : List (List Char × ToolRec)) (k : List Char)
    (v : ToolRec) : (updateKey acc k v).map Prod.fst = acc.map Prod.fst := by
  induction acc with
  | nil => simp [updateKey]
  | cons p t ih =>
    obtain ⟨k2, v2⟩ := p
    by_cases hk : k2 = k
    · simp [updateKey, hk]
    · simp [updateKey, hk, ih]

theorem updateKey_mem {acc : List (List Char × ToolRec)} {k : List Char}
    {v : ToolRec} {p : List Char × ToolRec} (h : p ∈ updateKey acc k v) :
    p = (k, v) ∨ p ∈ acc := by
  induction acc with
  | nil => simp [updateKey] at h
  | cons q t ih =>
    obtain ⟨k2, v2⟩ := q
    simp only [updateKey] at h
    by_cases hk : k2 = k
    · rw [if_pos hk] at h
      rcases List.mem_cons.mp h with h2 | h2
      · exact Or.inl (by rw [h2, hk])
      · exact Or.inr (List.mem_cons_of_mem _ h2)
    · rw [if_neg hk] at h
      rcases List.mem_cons.mp h with h2 | h2
      · exact Or.inr (by simp [h2])
      · rcases ih h2 with h3 | h3
        · exact Or.inl h3
        · exact Or.inr (List.mem_cons_of_mem _ h3)

theorem dedupeAux_inv :
    ∀ (data : List ToolRec) (acc : List (List Char × ToolRec)),
      (∀ p ∈ acc, pyLower p.2.name = p.1) → (acc.map Prod.fst).Nodup →
      (∀ p ∈ dedupeAux data acc, pyLower p.2.name = p.1)
        ∧ ((dedupeAux data acc).map Prod.fst).Nodup := by
  intro data
  induction data with
  | nil =>
    intro acc h1 h2
    exact ⟨h1, h2⟩
  | cons obj rest ih =>
    intro acc h1 h2
    cases hl : lookupKey acc (pyLower obj.name) with
    | some m =>
      simp only [dedupeAux, hl]
      apply ih
      · intro p hp
        rcases updateKey_mem hp with h | h
        · subst h
          exact mergeObj_name_key (h1 _ (lookupKey_some_mem hl)) rfl
        · exact h1 p h
      · rw [updateKey_map_fst]
        exact h2
    | none =>
      simp only [dedupeAux, hl]
      apply ih
      · intro p hp
        rcases List.mem_append.mp hp with h | h
        · exact h1 p h
        · simp only [List.mem_singleton] at h
          subst h
          rfl
      · rw [List.map_append]
        refine List.Nodup.append h2 (by simp) ?_
        intro a ha hb
        simp only [List.map_cons, List.map_nil, List.mem_singleton] at hb
        subst hb
        exact (lookupKey_none_iff acc (pyLower obj.name)).mp hl ha

theorem dedupeAux_fresh :
    ∀ (data : List ToolRec) (acc : List (List Char × ToolRec)),
      (∀ r ∈ data, pyLower r.name ∉ acc.map Prod.fst) →
      (data.map (fun r => pyLower r.name)).Nodup →
      dedupeAux data acc = acc ++ data.map (fun r => (pyLower r.name, r)) := by
  intro data
  induction data with
  | nil =>
    intro acc _ _
    simp [dedupeAux]
  | cons obj rest ih =>
    intro acc hfresh hnd
    have hnd2 : (∀ x ∈ rest, ¬ pyLower x.name = pyLower obj.name)
        ∧ (rest.map (fun r => pyLower r.name)).Nodup := by
      simpa using hnd
    have hl : lookupKey acc (pyLower obj.name) = none :=
      (lookupKey_none_iff acc _).mpr (hfresh obj (by simp))
    simp only [dedupeAux, hl]
    rw [ih (acc ++ [(pyLower obj.name, obj)])]
    · simp
    · intro r hr
      rw [List.map_append, List.mem_append]
      push_neg
      constructor
      · exact hfresh r (List.mem_cons_of_mem _ hr)
      · simp only [List.map_cons, List.map_nil, List.mem_singleton]
        exact hnd2.1 r hr
    · exact hnd2.2

theorem dedupe_keys_nodup (data : List ToolRec) :
    ((dedupe data).map (fun r => pyLower r.name)).Nodup := by
  have h := dedupeAux_inv data [] (by simp) (by simp)
  have heq : (dedupe data).map (fun r => pyLower r.name)
      = (dedupeAux data []).map Prod.fst := by
    unfold dedupe
    rw [List.map_map]
    exact List.map_congr_left fun p hp => h.1 p hp
  rw [heq]
  exact h.2

theorem map_snd_pair (l : List ToolRec) :
    (l.map (fun r => (pyLower r.name, r))).map Prod.snd = l := by
  induction l with
  | nil => rfl
  | cons a t ih => simp [ih]

theorem dedupe_of_nodup_keys (l : List ToolRec)
    (h : (l.map (fun r => pyLower r.name)).Nodup) : dedupe l = l := by
  unfold dedupe
  rw [dedupeAux_fresh l [] (by simp) h]
  simpa using map_snd_pair l

/-! Rendering: behavior of the url-scanning loop. -/

theorem scanUrlsLoop_filter :
    ∀ (urls : List UrlEntry) (h : Option (List Char)) (o : List UrlEntry),
      scanUrlsLoop (urls.filter (fun u => u.url ≠ [])) h o
        = scanUrlsLoop urls h o := by
  intro urls
  induction urls with
  | nil => intro h o; rfl
  | cons u rest ih =>
    intro h o
    by_cases hu : u.url = []
    · have hfil : (u :: rest).filter (fun u => u.url ≠ [])
          = rest.filter (fun u => u.url ≠ []) := by
        simp [List.filter_cons, hu]
      rw [hfil, ih]
      simp [scanUrlsLoop, hu]
    · have hfil : (u :: rest).filter (fun u => u.url ≠ [])
          = u :: rest.filter (fun u => u.url ≠ []) := by
        simp [List.filter_cons, hu]
      rw [hfil]
      by_cases hn : u.name = "home".data
      · simp only [scanUrlsLoop, if_neg hu, if_pos hn]
        exact ih _ _
      · simp only [scanUrlsLoop, if_neg hu, if_neg hn]
        exact ih _ _

theorem scanUrls_filter (urls : List UrlEntry) :
    scanUrls (urls.filter (fun u => u.url ≠ [])) = scanUrls urls :=
  scanUrlsLoop_filter urls none []

theorem scanUrlsLoop_fst_none :
    ∀ (urls : List UrlEntry) (h : Option (List Char)) (o : List UrlEntry),
      (scanUrlsLoop urls h o).1 = none
        ↔ (h = none ∧ ∀ u ∈ urls, u.name = "home".data → u.url = []) := by
  intro urls
  induction urls with
  | nil => intro h o; simp [scanUrlsLoop]
  | cons u rest ih =>
    intro h o
    by_cases hu : u.url = []
    · simp [scanUrlsLoop, hu, ih]
    · by_cases hn : u.name = "home".data
      · simp [scanUrlsLoop, hu, hn, ih]
      · simp [scanUrlsLoop, hu, hn, ih]

theorem scanUrls_fst_none (urls : List UrlEntry) :
    (scanUrls urls).1 = none
      ↔ ∀ u ∈ urls, u.name = "home".data → u.url = [] := by
  simp [scanUrls, scanUrlsLoop_fst_none]

theorem table_rows_error :
    ∀ (tools : List ToolRec) (tg nt : Bool),
      (∃ r ∈ tools, (scanUrls r.urls).1 = none) →
      ∃ r ∈ tools, (scanUrls r.urls).1 = none ∧
        table_rows tools tg nt = .error (missing_home_msg r.name) := by
  intro tools
  induction tools with
  | nil =>
    intro tg nt h
    simp at h
  | cons tool rest ih =>
    intro tg nt h
    cases hs : (scanUrls tool.urls).1 with
    | none =>
      refine ⟨tool, by simp, hs, ?_⟩
      simp [table_rows, table_row, hs]
    | some hu =>
      have h2 : ∃ r ∈ rest, (scanUrls r.urls).1 = none := by
        obtain ⟨r, hr, hrs⟩ := h
        rcases List.mem_cons.mp hr with rfl | hr2
        · rw [hs] at hrs; cases hrs
        · exact ⟨r, hr2, hrs⟩
      obtain ⟨r, hr, hrs, herr⟩ := ih tg nt h2
      refine ⟨r, List.mem_cons_of_mem _ hr, hrs, ?_⟩
      simp [table_rows, table_row, hs, herr]

theorem table_rows_filter :
    ∀ (tools : List ToolRec) (tg nt : Bool),
      table_rows (tools.map stripEmptyUrls) tg nt = table_rows tools tg nt := by
  intro tools
  induction tools with
  | nil => intro tg nt; rfl
  | cons tool rest ih =>
    intro tg nt
    have hscan : scanUrls (stripEmptyUrls tool).urls = scanUrls tool.urls :=
      scanUrls_filter tool.urls
    have hname : (stripEmptyUrls tool).name = tool.name := rfl
    have hdesc : (stripEmptyUrls tool).description = tool.description := rfl
    have htags : (stripEmptyUrls tool).tags = tool.tags := rfl
    have hnotes : (stripEmptyUrls tool).notes = tool.notes := rfl
    simp only [List.map_cons, table_rows, table_row, hscan, hname, hdesc,
      htags, hnotes, ih]

theorem list_lines_filter :
    ∀ (tools : List ToolRec) (tg nt : Bool),
      list_lines (tools.map stripEmptyUrls) tg nt = list_lines tools tg nt := by
  intro tools
  induction tools with
  | nil => intro tg nt; rfl
  | cons tool rest ih =>
    intro tg nt
    have hscan : scanUrls (stripEmptyUrls tool).urls = scanUrls tool.urls :=
      scanUrls_filter tool.urls
    have hname : (stripEmptyUrls tool).name = tool.name := rfl
    have hdesc : (stripEmptyUrls tool).description = tool.description := rfl
    have htags : (stripEmptyUrls tool).tags = tool.tags := rfl
    have hnotes : (stripEmptyUrls tool).notes = tool.notes := rfl
    simp only [List.map_cons, list_lines, list_entry, hscan, hname, hdesc,
      htags, hnotes, ih]

/-! Claim theorems. -/

/-- C1: code behavior at the failing input.  The two names Curl and
CUrl have the same all-lowercase status and the incoming description
(ab) is strictly longer than the accumulator's (a), so the claim — and
the source's own comment — demand the incoming name CUrl be adopted;
the code instead merges the description first and then compares the
incoming description against the already-merged one, so the comparison
is always false and the accumulator's name Curl is kept. -/
theorem C1_name_tiebreak_code_behavior :
    pyIsLower c1_first.name = pyIsLower c1_second.name
    ∧ c1_first.description.length < c1_second.description.length
    ∧ dedupe [c1_first, c1_second] = [c1_result]
    ∧ c1_result.name = c1_first.name
    ∧ c1_result.name ≠ c1_second.name := by
  refine ⟨rfl, by decide, rfl, rfl, by decide⟩

/-- C2 counterexample: in a document with two end markers after the
start marker, the greedy DOTALL pattern matches up to the last end
marker, so the text at and beyond the second end-marker occurrence is
replaced rather than left unchanged as the claim states. -/
theorem C2_counterexample :
    replace_marker_section
        (MARKER_START_STR ++ "\nA\n".data ++ MARKER_END_STR ++ "\nB\n".data
          ++ MARKER_END_STR) "NEW".data
      = .ok (MARKER_START_STR ++ "\n\nNEW\n\n".data ++ MARKER_END_STR)
    ∧ replace_marker_section
        (MARKER_START_STR ++ "\nA\n".data ++ MARKER_END_STR ++ "\nB\n".data
          ++ MARKER_END_STR) "NEW".data
      ≠ .ok (MARKER_START_STR ++ "\n\nNEW\n\n".data ++ MARKER_END_STR
          ++ "\nB\n".data ++ MARKER_END_STR) := by
  have hrun : replace_marker_section
      (MARKER_START_STR ++ "\nA\n".data ++ MARKER_END_STR ++ "\nB\n".data
        ++ MARKER_END_STR) "NEW".data
      = .ok (MARKER_START_STR ++ "\n\nNEW\n\n".data ++ MARKER_END_STR) := rfl
  refine ⟨hrun, fun hcon => ?_⟩
  have heq := Except.ok.inj (hrun.symm.trans hcon)
  exact absurd heq (by decide)

/-- C2 (amended): the projector locates the first occurrence of the
start marker and the last occurrence of the end marker after it
(greedy DOTALL matching) and replaces everything between them with the
expansion of the replacement template backslash-1, blank line, rendered
section, blank line, backslash-3 — `re.sub` processes backslash escapes
inside the rendered section — so a rendered section containing no
backslash is spliced literally with one blank line on each side; only
the text before the start marker and after the last end-marker
occurrence is preserved. -/
theorem C2_amended_greedy_match (content new_section out : List Char)
    (h : replace_marker_section content new_section = .ok out) :
    ∃ i j, MARKER_START_STR <+: content.drop i
      ∧ (∀ k, MARKER_START_STR <+: content.drop k → i ≤ k)
      ∧ MARKER_END_STR <+: content.drop j
      ∧ (∀ k, MARKER_END_STR <+: content.drop k → k ≤ j)
      ∧ i + MARKER_START_STR.length ≤ j
      ∧ (∃ repl, expand_template (sub_template new_section) MARKER_START_STR
            ((content.drop (i + MARKER_START_STR.length)).take
              (j - (i + MARKER_START_STR.length))) MARKER_END_STR = .ok repl
          ∧ out = content.take i ++ repl
              ++ content.drop (j + MARKER_END_STR.length))
      ∧ ('\\' ∉ new_section →
          out = content.take i ++ MARKER_START_STR ++ NL2 ++ new_section
            ++ NL2 ++ MARKER_END_STR
            ++ content.drop (j + MARKER_END_STR.length)) := by
  obtain ⟨i, j, repl, hf, hl, hc, hexp, hout⟩ := replace_ok_elim h
  refine ⟨i, j, findFirst_spec1 _ _ _ hf, findFirst_spec2 _ _ _ hf,
    findLast_spec1 _ _ _ hl, findLast_spec2 _ (by decide) _ _ hl, hc,
    ⟨repl, hexp, hout⟩, ?_⟩
  intro hbs
  have hlit := expand_sub_template_literal MARKER_START_STR MARKER_END_STR
    new_section hbs
    ((content.drop (i + MARKER_START_STR.length)).take
      (j - (i + MARKER_START_STR.length)))
  rw [hexp] at hlit
  rw [hout, Except.ok.inj hlit]
  simp [List.append_assoc]

/-- C2 witness: the amended statement at the two-end-marker document
with the backslash-free rendered section NEW. -/
theorem C2_amended_greedy_match_witness :
    ∃ i j, MARKER_START_STR <+: two_end_doc.drop i
      ∧ (∀ k, MARKER_START_STR <+: two_end_doc.drop k → i ≤ k)
      ∧ MARKER_END_STR <+: two_end_doc.drop j
      ∧ (∀ k, MARKER_END_STR <+: two_end_doc.drop k → k ≤ j)
      ∧ i + MARKER_START_STR.length ≤ j
      ∧ (∃ repl, expand_template (sub_template "NEW".data) MARKER_START_STR
            ((two_end_doc.drop (i + MARKER_START_STR.length)).take
              (j - (i + MARKER_START_STR.length))) MARKER_END_STR = .ok repl
          ∧ (MARKER_START_STR ++ "\n\nNEW\n\n".data ++ MARKER_END_STR)
              = two_end_doc.take i ++ repl
                ++ two_end_doc.drop (j + MARKER_END_STR.length))
      ∧ ('\\' ∉ "NEW".data →
          (MARKER_START_STR ++ "\n\nNEW\n\n".data ++ MARKER_END_STR)
            = two_end_doc.take i ++ MARKER_START_STR ++ NL2 ++ "NEW".data
              ++ NL2 ++ MARKER_END_STR
              ++ two_end_doc.drop (j + MARKER_END_STR.length)) :=
  C2_amended_greedy_match two_end_doc "NEW".data _ rfl

/-- C3 counterexample: with the rendered section backslash-2, `re.sub`
expands the backreference to the matched interior, so projecting a
second time grows the interior again — projection is not a fixed point
for that rendered section, refuting the claim's universal
quantification over rendered sections. -/
theorem C3_counterexample :
    replace_marker_section old_doc ['\\', '2']
      = .ok (MARKER_START_STR ++ "\n\n\nOLD\n\n\n".data ++ MARKER_END_STR)
    ∧ replace_marker_section
        (MARKER_START_STR ++ "\n\n\nOLD\n\n\n".data ++ MARKER_END_STR)
        ['\\', '2']
      = .ok (MARKER_START_STR ++ "\n\n\n\n\nOLD\n\n\n\n\n".data
          ++ MARKER_END_STR)
    ∧ (MARKER_START_STR ++ "\n\n\n\n\nOLD\n\n\n\n\n".data ++ MARKER_END_STR)
      ≠ (MARKER_START_STR ++ "\n\n\nOLD\n\n\n".data ++ MARKER_END_STR) := by
  refine ⟨rfl, rfl, ?_⟩
  decide

/-- C3 (amended): a successful projection never alters bytes outside
the matched marker span, for every rendered section; and for every
rendered section containing no backslash — hence unaffected by re.sub
template-escape expansion — projecting the section into a document and
then projecting the same section into the result returns the first
result unchanged. -/
theorem C3_projection_fixed_point :
    (∀ content new_section out,
        replace_marker_section content new_section = .ok out →
        ∃ pre mid post repl,
          content = pre ++ MARKER_START_STR ++ mid ++ MARKER_END_STR ++ post
          ∧ out = pre ++ repl ++ post)
    ∧ (∀ content new_section out, '\\' ∉ new_section →
        replace_marker_section content new_section = .ok out →
        replace_marker_section out new_section = .ok out
        ∧ ∃ pre mid post,
            content = pre ++ MARKER_START_STR ++ mid ++ MARKER_END_STR ++ post
            ∧ out = pre ++ MARKER_START_STR ++ NL2 ++ new_section ++ NL2
                ++ MARKER_END_STR ++ post) := by
  constructor
  · intro content new_section out h
    obtain ⟨pre, mid, post, repl, i, j, hf, hl, hpre, hplen, hpost, hexp,
      hcontent, hout⟩ := replace_ok_split h
    exact ⟨pre, mid, post, repl, hcontent, hout⟩
  · intro content new_section out hbs h
    obtain ⟨pre, mid, post, i, j, hf, hl, hpre, hplen, hpost, hcontent,
      hout⟩ := replace_ok_split_literal hbs h
    exact ⟨replace_fixed_point hbs h, pre, mid, post, hcontent, hout⟩

/-- C3 witness: the fixed point at a concrete document with the
backslash-free rendered section NEW. -/
theorem C3_projection_fixed_point_witness :
    replace_marker_section
        (MARKER_START_STR ++ "\n\nNEW\n\n".data ++ MARKER_END_STR) "NEW".data
      = .ok (MARKER_START_STR ++ "\n\nNEW\n\n".data ++ MARKER_END_STR)
    ∧ ∃ pre mid post,
        old_doc = pre ++ MARKER_START_STR ++ mid ++ MARKER_END_STR ++ post
        ∧ (MARKER_START_STR ++ "\n\nNEW\n\n".data ++ MARKER_END_STR)
          = pre ++ MARKER_START_STR ++ NL2 ++ "NEW".data ++ NL2
            ++ MARKER_END_STR ++ post :=
  C3_projection_fixed_point.2 old_doc "NEW".data _ (by decide) rfl

/-- C4: when no start-marker occurrence is followed by an end-marker
occurrence, projection fails with the markers-not-found error and the
document update never produces any text to write. -/
theorem C4_markers_not_found (content : List Char)
    (h : ¬ ∃ i j, MARKER_START_STR <+: content.drop i
        ∧ MARKER_END_STR <+: content.drop j
        ∧ i + MARKER_START_STR.length ≤ j) :
    (∀ new_section, replace_marker_section content new_section
      = .error MARKERS_NOT_FOUND_MSG)
    ∧ ∀ tools as_table tg nt d,
        update_readme_with_table tools content as_table tg nt ≠ .ok d := by
  refine ⟨replace_error_of_no_pair h, ?_⟩
  intro tools as_table tg nt d hcon
  cases hr : (if as_table then render_markdown_table tools tg nt
      else render_markdown_list tools tg nt) with
  | error e =>
    simp only [update_readme_with_table, hr] at hcon
    cases hcon
  | ok ns =>
    simp only [update_readme_with_table, hr] at hcon
    rw [replace_error_of_no_pair h ns] at hcon
    cases hcon

/-- C4 witness: the empty document lacks both markers. -/
theorem C4_markers_not_found_witness :
    replace_marker_section [] "x".data = .error MARKERS_NOT_FOUND_MSG
    ∧ update_readme_with_table [] [] true false false ≠ .ok [] := by
  have hno : ¬ ∃ i j, MARKER_START_STR <+: (([] : List Char)).drop i
      ∧ MARKER_END_STR <+: (([] : List Char)).drop j
      ∧ i + MARKER_START_STR.length ≤ j := by
    rintro ⟨i, j, hS, hE, hij⟩
    rw [List.drop_nil] at hS
    exact absurd (List.prefix_nil.mp hS) (by decide)
  exact ⟨(C4_markers_not_found [] hno).1 "x".data,
    (C4_markers_not_found [] hno).2 [] true false false []⟩

/-- C5: any record sequence containing a record with no home-labeled
link makes table rendering fail with the missing-home-link error naming
the offending record (the first record without a usable home link), and
the document update returns that error before any text is produced for
writing. -/
theorem C5_missing_home_error (tools : List ToolRec) (content : List Char)
    (tg nt : Bool)
    (h : ∃ r ∈ tools, ∀ u ∈ r.urls, u.name ≠ "home".data) :
    ∃ r ∈ tools, (∀ u ∈ r.urls, u.name = "home".data → u.url = [])
      ∧ render_markdown_table tools tg nt = .error (missing_home_msg r.name)
      ∧ update_readme_with_table tools content true tg nt
          = .error (missing_home_msg r.name) := by
  have h2 : ∃ r ∈ tools, (scanUrls r.urls).1 = none := by
    obtain ⟨r, hr, hnone⟩ := h
    exact ⟨r, hr, (scanUrls_fst_none r.urls).mpr
      (fun u hu hname => absurd hname (hnone u hu))⟩
  obtain ⟨r, hr, hrs, herr⟩ := table_rows_error tools tg nt h2
  have hrender : render_markdown_table tools tg nt
      = .error (missing_home_msg r.name) := by
    simp [render_markdown_table, herr]
  refine ⟨r, hr, (scanUrls_fst_none r.urls).mp hrs, hrender, ?_⟩
  simp only [update_readme_with_table, if_true, hrender]

/-- C5 witness: a single record with no urls at all. -/
theorem C5_missing_home_error_witness :
    ∃ r ∈ [no_urls_rec],
      (∀ u ∈ r.urls, u.name = "home".data → u.url = [])
      ∧ render_markdown_table [no_urls_rec] false false
          = .error (missing_home_msg r.name)
      ∧ update_readme_with_table [no_urls_rec] "d".data true false false
          = .error (missing_home_msg r.name) :=
  C5_missing_home_error [no_urls_rec] "d".data false false
    ⟨no_urls_rec, by simp, by simp [no_urls_rec]⟩

/-- C6 counterexample: the rendered section backslash-t is not placed
verbatim between the blank lines — `re.sub` template processing turns
it into a TAB character — refuting the claim's universal statement
about every successful projection. -/
theorem C6_counterexample :
    replace_marker_section old_doc ['\\', 't']
      = .ok (MARKER_START_STR ++ NL2 ++ [Char.ofNat 9] ++ NL2
          ++ MARKER_END_STR)
    ∧ replace_marker_section old_doc ['\\', 't']
      ≠ .ok (MARKER_START_STR ++ NL2 ++ ['\\', 't'] ++ NL2
          ++ MARKER_END_STR) := by
  have hrun : replace_marker_section old_doc ['\\', 't']
      = .ok (MARKER_START_STR ++ NL2 ++ [Char.ofNat 9] ++ NL2
          ++ MARKER_END_STR) := rfl
  refine ⟨hrun, fun hcon => ?_⟩
  have heq := Except.ok.inj (hrun.symm.trans hcon)
  exact absurd heq (by decide)

/-- C6 (amended): every successful projection of a rendered section
containing no backslash — hence unaffected by re.sub template-escape
expansion — places the section between one blank line on each side with
both markers verbatim; concretely, projecting NEW into start marker,
newline, OLD, newline, end marker yields start marker, two newlines,
NEW, two newlines, end marker. -/
theorem C6_blank_line_padding :
    (∀ content new_section out, '\\' ∉ new_section →
        replace_marker_section content new_section = .ok out →
        ∃ pre post, out = pre ++ MARKER_START_STR ++ NL2 ++ new_section
          ++ NL2 ++ MARKER_END_STR ++ post)
    ∧ replace_marker_section old_doc "NEW".data
      = .ok (MARKER_START_STR ++ "\n".data ++ "\n".data ++ "NEW".data
          ++ "\n".data ++ "\n".data ++ MARKER_END_STR) := by
  constructor
  · intro content new_section out hbs h
    obtain ⟨pre, mid, post, i, j, hf, hl, hpre, hplen, hpost, hcontent,
      hout⟩ := replace_ok_split_literal hbs h
    exact ⟨pre, post, hout⟩
  · rfl

/-- C6 witness: the padding decomposition at the concrete document. -/
theorem C6_blank_line_padding_witness :
    ∃ pre post, (MARKER_START_STR ++ "\n\nNEW\n\n".data ++ MARKER_END_STR)
      = pre ++ MARKER_START_STR ++ NL2 ++ "NEW".data ++ NL2
        ++ MARKER_END_STR ++ post :=
  C6_blank_line_padding.1 old_doc "NEW".data _ (by decide) rfl

/-- C7: reconciliation is idempotent — after one pass all lowercased
name keys are distinct, so a second pass merges nothing. -/
theorem C7_dedupe_idempotent (data : List ToolRec) :
    dedupe (dedupe data) = dedupe data :=
  dedupe_of_nodup_keys (dedupe data) (dedupe_keys_nodup data)

/-- C8: the records curl and Curl (same home url, tags cli and http)
reconcile into a single record named Curl whose tag set is exactly
the two tags. -/
theorem C8_curl_merge :
    dedupe [curl_lower, curl_mixed] = [curl_merged]
    ∧ curl_merged.name = "Curl".data
    ∧ curl_merged.tags.toFinset = {"cli".data, "http".data} := by
  exact ⟨rfl, rfl, by decide⟩

/-- C9: the schema upgrade moves each tag whose lowercased form is a
platform keyword into platforms and out of tags, and defaults platforms
to all five enumerated platforms when no tag matched; with the two
concrete scenarios. -/
theorem C9_schema_upgrade_platforms :
    (∀ obj : OldTool,
      (∀ t, t ∈ (migrate_tool obj).tags
          ↔ t ∈ obj.tags ∧ pyLower t ∉ PLATFORM_KEYWORDS)
      ∧ ((∀ t ∈ obj.tags, pyLower t ∉ PLATFORM_KEYWORDS) →
          (migrate_tool obj).platforms = ALL_PLATFORMS)
      ∧ ((∃ t ∈ obj.tags, pyLower t ∈ PLATFORM_KEYWORDS) →
          ∀ t, t ∈ (migrate_tool obj).platforms
            ↔ t ∈ obj.tags ∧ pyLower t ∈ PLATFORM_KEYWORDS))
    ∧ migrate_tool x_old = x_new
    ∧ migrate_tool y_old = y_new := by
  refine ⟨?_, by decide, by decide⟩
  intro obj
  refine ⟨?_, ?_, ?_⟩
  · intro t
    simp [migrate_tool, List.mem_filter, List.mem_dedup]
  · intro hall
    have hfil : obj.tags.dedup.filter
        (fun t => pyLower t ∈ PLATFORM_KEYWORDS) = [] := by
      rw [List.filter_eq_nil_iff]
      intro a ha
      simpa using hall a (List.mem_dedup.mp ha)
    simp [migrate_tool, hfil]
  · intro hex t
    obtain ⟨u, hu, hup⟩ := hex
    have hne : obj.tags.dedup.filter
        (fun t => pyLower t ∈ PLATFORM_KEYWORDS) ≠ [] := by
      intro hcon
      rw [List.filter_eq_nil_iff] at hcon
      exact absurd (by simpa using hup)
        (by simpa using hcon u (List.mem_dedup.mpr hu))
    simp [migrate_tool, hne, List.mem_filter, List.mem_dedup]

/-- C9 witness: the no-platform-tag record receives all five
platforms. -/
theorem C9_schema_upgrade_platforms_witness :
    (migrate_tool y_old).platforms = ALL_PLATFORMS :=
  (C9_schema_upgrade_platforms.1 y_old).2.1 (by decide)

/-- C10: links whose url is empty are skipped by both renderers —
rendering a catalog equals rendering it with those links removed — and
a home link with an empty url does not count as a home link, so a
record whose only home-labeled links have empty urls triggers the
missing-home-link error. -/
theorem C10_empty_url_skipped :
    (∀ tools tg nt,
      render_markdown_table (tools.map stripEmptyUrls) tg nt
        = render_markdown_table tools tg nt
      ∧ render_markdown_list (tools.map stripEmptyUrls) tg nt
        = render_markdown_list tools tg nt)
    ∧ (∀ (r : ToolRec) (tg nt : Bool),
        (∀ u ∈ r.urls, u.name = "home".data → u.url = []) →
        render_markdown_table [r] tg nt = .error (missing_home_msg r.name)
        ∧ render_markdown_list [r] tg nt = .error (missing_home_msg r.name)) := by
  constructor
  · intro tools tg nt
    constructor
    · simp [render_markdown_table, table_rows_filter]
    · simp [render_markdown_list, list_lines_filter]
  · intro r tg nt hnone
    have hs : (scanUrls r.urls).1 = none := (scanUrls_fst_none r.urls).mpr hnone
    constructor
    · simp [render_markdown_table, table_rows, table_row, hs]
    · simp [render_markdown_list, list_lines, list_entry, hs]

/-- C10 witness: a record whose only home link has an empty url fails
to render. -/
theorem C10_empty_url_skipped_witness :
    render_markdown_table [empty_home_rec] true true
      = .error (missing_home_msg empty_home_rec.name) :=
  (C10_empty_url_skipped.2 empty_home_rec true true (by decide)).1

end Toolbelt
